import Mathlib

/-!
Verification of the orchestration core of the Agentic-Project-Builder
repository: a shallow embedding, in Lean, of the state models
(`builder/states.py`), the sandboxed file tools (`builder/tools.py`), the
routing functions (`builder/graph.py`), and the Coder / Reviewer / Fixer /
Architect stage functions, together with theorems settling the spec's
claims about them.

Modelling conventions:
* The file-system sandbox is a flat map from resolved path components to
  file contents (`FS`); directory creation has no observable effect at
  this level and is dropped.
* Paths are POSIX: a path is absolute iff it starts with "/"; `pathlib`'s
  lexical component handling (dropping "." and empty components, popping
  ".." during `resolve`) is reproduced on component lists.  `resolve`'s
  symlink following is out of scope.  The process working directory is
  taken as the filesystem root, so the resolved `PROJECT_ROOT`
  (default "generated_project") is the one-component list `rootParts`.
* Every call across the LLM boundary is an input: each stage function
  takes an oracle describing what the external model returned (or that
  the call raised).  The regex/JSON salvaging of a malformed tool-call
  payload embedded in an error string operates on such oracle text; where
  a claim does not depend on that parsing, the oracle hands over the
  parse's outcome directly (this is stated at each such definition).
* Python's stable `list.sort` is modelled by a stable insertion sort;
  Python's float comparison `new < orig * 0.3` is modelled by the exact
  rational comparison `10 * new < 3 * orig` (they agree for all string
  lengths below 10^15).
-/

/-! ## String helpers

Python's string operations are re-implemented by structural recursion on
the character list (`String.data`), rather than through the core library's
position-based versions, so that concrete runs reduce inside the kernel.
Each is behaviourally the standard operation. -/

/-- Split on a non-empty separator, scanning left to right (the fuel is
one unit per consumed character, so `length + 1` always suffices). -/
def chSplitGo (sep : List Char) : Nat → List Char → List Char → List (List Char)
  | 0, acc, rest => [acc.reverse ++ rest]
  | _ + 1, acc, [] => [acc.reverse]
  | fuel + 1, acc, c :: rest =>
    if sep.isPrefixOf (c :: rest) then
      acc.reverse :: chSplitGo sep fuel [] ((c :: rest).drop sep.length)
    else chSplitGo sep fuel (c :: acc) rest

/-- Python's `s.split(sep)` for non-empty `sep`. -/
def strSplitOn (s sep : String) : List String :=
  (chSplitGo sep.data (s.data.length + 1) [] s.data).map String.mk

/-- Python's `s.strip()`. -/
def strTrim (s : String) : String :=
  String.mk (((s.data.dropWhile Char.isWhitespace).reverse.dropWhile Char.isWhitespace).reverse)

/-- Python's `s.startswith(p)`. -/
def strStartsWith (s p : String) : Bool :=
  p.data.isPrefixOf s.data

/-- First `n` characters. -/
def strTake (s : String) (n : Nat) : String :=
  String.mk (s.data.take n)

/-- All but the first `n` characters. -/
def strDrop (s : String) (n : Nat) : String :=
  String.mk (s.data.drop n)

/-- Python's `s.upper()` (ASCII). -/
def strToUpper (s : String) : String :=
  String.mk (s.data.map Char.toUpper)

/-- Python's `s.lower()` (ASCII). -/
def strToLower (s : String) : String :=
  String.mk (s.data.map Char.toLower)

/-- Python's `sep.join(l)`. -/
def strIntercalate (sep : String) : List String → String
  | [] => ""
  | x :: xs => xs.foldl (fun acc y => acc ++ sep ++ y) x

/-- Python's `sub in s` substring test. -/
def containsSub (s sub : String) : Bool :=
  (strSplitOn s sub).length > 1

/-- Python's `max(xs, key=len)`: first element of maximal length. -/
def maxByLen : List String → Option String
  | [] => none
  | x :: xs => some (xs.foldl (fun b a => if a.length > b.length then a else b) x)

/-- Stable insertion of `x` into a list sorted by `key` (equal keys keep
the existing elements first, as Python's stable `list.sort` does). -/
def stableInsert {α : Type} (key : α → Int) (x : α) : List α → List α
  | [] => [x]
  | y :: ys => if key y ≤ key x then y :: stableInsert key x ys else x :: y :: ys

/-- Stable sort by an integer key, modelling Python's `list.sort(key=...)`. -/
def stableSortBy {α : Type} (key : α → Int) (l : List α) : List α :=
  l.foldl (fun acc x => stableInsert key x acc) []

/-! ## Path model (`builder/tools.py`) -/

/-- Path components as `pathlib` parses them: split on "/", dropping empty
and "." components. -/
def pathParts (s : String) : List String :=
  (strSplitOn s "/").filter (fun c => c ≠ "" && c ≠ ".")

/-- `pathlib.Path(s).name` as a component list: the final component if
there is one (it can be ".."), else no component. -/
def pathNameParts (s : String) : List String :=
  match (pathParts s).getLast? with
  | none => []
  | some c => [c]

/-- Lexical `resolve` over components starting from the filesystem root:
".." pops one component (staying put at the root), every other component
is appended ("." components were already dropped by `pathParts`). -/
def normalizeParts (parts : List String) : List String :=
  parts.foldl (fun acc c =>
    if c = "." then acc
    else if c = ".." then acc.dropLast
    else acc ++ [c]) []

/-- The resolved `PROJECT_ROOT` (env default "generated_project"), with the
working directory modelled as the filesystem root. -/
def rootParts : List String := ["generated_project"]

/-- `safe_path_for_project` from `builder/tools.py`: an absolute argument
is replaced by its `pathlib` name; the result is resolved against
`PROJECT_ROOT` and must stay under it, else a security error is raised. -/
def safe_path_for_project (path : String) : Except String (List String) :=
  let parts := if strStartsWith path "/" then pathNameParts path else pathParts path
  let p := normalizeParts (rootParts ++ parts)
  if rootParts.isPrefixOf p then Except.ok p
  else Except.error ("Security Error: Attempt to access path outside project root: " ++ path)

/-- The sandboxed project tree: resolved path components to contents. -/
def FS : Type := List String → Option String

/-- An empty project tree. -/
def emptyFS : FS := fun _ => none

/-- `read_file` tool: "" when the file does not exist, an "ERROR: ..."
string when path validation raises. -/
def read_file (fs : FS) (path : String) : String :=
  match safe_path_for_project path with
  | Except.error e => "ERROR: Failed to read " ++ path ++ ": " ++ e
  | Except.ok p =>
    match fs p with
    | none => ""
    | some c => c

/-- `write_file` tool: returns the updated tree and the tool's message
("SUCCESS: Wrote ..." or "ERROR: ..."). -/
def write_file (fs : FS) (path content : String) : FS × String :=
  match safe_path_for_project path with
  | Except.error e => (fs, "ERROR: Failed to write to " ++ path ++ ": " ++ e)
  | Except.ok p =>
    (fun q => if q = p then some content else fs q,
     "SUCCESS: Wrote " ++ toString content.length ++ " characters to " ++ path)

/-! ## State models (`builder/states.py`) -/

/-- `AgentPhase` enum. -/
inductive AgentPhase where
  | INITIALIZING | PLANNING | ARCHITECTING | CODING | REVIEWING
  | FIXING | TESTING | FINALIZING | COMPLETE | FAILED
deriving DecidableEq, Repr

/-- `ReviewSeverity` enum. -/
inductive ReviewSeverity where
  | critical | high | medium | low | pass
deriving DecidableEq, Repr

/-- `File` model. -/
structure File where
  path : String
  purpose : String
  dependencies : List String := []
deriving DecidableEq, Repr

/-- `Plan` model. -/
structure Plan where
  name : String
  description : String
  techstack : String
  features : List String
  files : List File
  architecture_notes : String := ""
deriving DecidableEq, Repr

/-- `ImplementationTask` model. -/
structure ImplementationTask where
  filepath : String
  task_description : String
  dependencies : List String := []
  expected_exports : List String := []
  priority : Int := 0
deriving DecidableEq, Repr

/-- `TaskPlan` model. -/
structure TaskPlan where
  plan : Option Plan := none
  implementation_steps : List ImplementationTask
  total_estimated_tokens : Int := 0
deriving DecidableEq, Repr

/-- `CoderState` model. -/
structure CoderState where
  task_plan : TaskPlan
  current_step_idx : Nat := 0
  completed_files : List String := []
  failed_files : List String := []
  current_file_content : Option String := none
deriving DecidableEq, Repr

/-- `CodeIssue` model. -/
structure CodeIssue where
  line_number : Option Int := none
  issue_type : String
  description : String
  suggestion : String
  severity : ReviewSeverity
deriving DecidableEq, Repr

/-- `CodeReview` model. -/
structure CodeReview where
  filepath : String
  issues : List CodeIssue := []
  passed : Bool
  overall_quality : Int := 0
  summary : String := ""
deriving DecidableEq, Repr

/-- `ReviewState` model, with the Pydantic field defaults. -/
structure ReviewState where
  reviews : List CodeReview := []
  iteration : Nat := 0
  max_iterations : Nat := 3
  all_passed : Bool := false
deriving DecidableEq, Repr

/-- A `ReviewState` constructed with every field left to its default. -/
def defaultReviewState : ReviewState := {}

/-- The mutable pipeline state dictionary threaded through the graph
(`ProjectState` keys the stage functions touch); a `none` field models an
absent key.  Each stage function below returns the merged dictionary, so
a key the Python return dict omits keeps its previous value. -/
structure PState where
  user_prompt : Option String := none
  plan : Option Plan := none
  task_plan : Option TaskPlan := none
  coder_state : Option CoderState := none
  review_state : Option ReviewState := none
  current_phase : Option AgentPhase := none
  status : Option String := none
  errors : Option (List String) := none
deriving Repr

/-! ## Routing (`builder/graph.py`) -/

/-- `route_after_coder`. -/
def route_after_coder (state : PState) : String :=
  match state.coder_state with
  | none => "reviewer"
  | some cs =>
    if cs.current_step_idx ≥ cs.task_plan.implementation_steps.length then "reviewer"
    else "coder"

/-- `route_after_review`. -/
def route_after_review (state : PState) : String :=
  match state.review_state with
  | none => "test_generator"
  | some rs =>
    if rs.all_passed then "test_generator"
    else if rs.iteration ≥ rs.max_iterations then "test_generator"
    else "fixer"

/-! ## Architect fallback (`agent/agents/architect.py`) -/

/-- The fixed extension-to-priority table of `create_fallback_task_plan`. -/
def priority_map : List (String × Int) :=
  [(".json", 0), (".html", 1), (".css", 2), (".js", 3), (".py", 1), (".md", 4)]

/-- `'.' + file.path.split('.')[-1] if '.' in file.path else ''`. -/
def architectExt (path : String) : String :=
  let parts := strSplitOn path "."
  if parts.length > 1 then "." ++ (parts.getLast?.getD "") else ""

/-- The task description string the fallback synthesizer builds. -/
def fallbackTaskText (plan : Plan) (f : File) : String :=
  "Create the file " ++ f.path ++ " for the " ++ plan.name ++ " project.\n\n" ++
  "Purpose: " ++ f.purpose ++ "\n\n" ++
  "Tech Stack: " ++ plan.techstack ++ "\n\n" ++
  "Project Features to implement:\n" ++
  strIntercalate "\n" (plan.features.map (fun ft => "- " ++ ft)) ++
  "\n\nCreate a complete, working implementation. Include all necessary code.\n"

/-- `create_fallback_task_plan`: one task per plan file, priority from the
extension table (falling back to the file's index), dependencies = every
file declared before it, finally stable-sorted by priority. -/
def create_fallback_task_plan (plan : Plan) : TaskPlan :=
  let fallback_steps := plan.files.enum.map (fun p =>
    let i := p.1
    let f := p.2
    let ext := architectExt f.path
    let priority := ((priority_map.find? (fun q => q.1 = ext)).map (fun q => q.2)).getD (Int.ofNat i)
    { filepath := f.path
      task_description := fallbackTaskText plan f
      dependencies := (plan.files.take i).map (fun g => g.path)
      expected_exports := []
      priority := priority : ImplementationTask })
  { implementation_steps := stableSortBy (fun t => t.priority) fallback_steps }

/-! ## Fenced-code extraction (coder/fixer response post-processing)

The Python code extracts code blocks from a free-text LLM response with
`re.findall` over patterns of the shape  ` ```lang\n(.*?)``` `.  That scan
is reproduced here on the segments between "```" markers: a segment opens
a block if it starts with an accepted language word followed by a newline
(or a bare newline where the pattern's language group is optional), and
the block runs lazily to the next "```" marker. -/

/-- The language alternatives of the generic fenced pattern. -/
def fenceLangs : List String := ["html", "css", "javascript", "js", "python", "json"]

/-- Opening-fence continuation test: strip `lang ++ "\n"` for the first
matching `lang`, or a bare "\n" when the language group is optional. -/
def stripLangNL (langs : List String) (allowBare : Bool) (s : String) : Option String :=
  match langs.find? (fun l => strStartsWith s (l ++ "\n")) with
  | some l => some (strDrop s (l.length + 1))
  | none => if allowBare && strStartsWith s "\n" then some (strDrop s 1) else none

/-- Scan the segments between "```" markers, pairing opening and closing
fences the way the regex engine consumes them. -/
def scanFenceBlocks (stripOpen : String → Option String) : List String → List String
  | [] => []
  | [_] => []
  | _ :: b :: rest2 =>
    if rest2.isEmpty then []
    else
      match stripOpen b with
      | some blk => blk :: scanFenceBlocks stripOpen rest2
      | none => scanFenceBlocks stripOpen (b :: rest2)

/-- All blocks a fenced pattern matches in `s`. -/
def fencedMatches (stripOpen : String → Option String) (s : String) : List String :=
  scanFenceBlocks stripOpen (strSplitOn s "```")

/-- `extract_code_from_response` from `builder/agents/coder.py`: the
optional-language pattern first, then the plain pattern; the longest
match wins. -/
def extract_code_from_response (response_text : String) : Option String :=
  match maxByLen (fencedMatches (stripLangNL fenceLangs true) response_text) with
  | some m => some m
  | none => maxByLen (fencedMatches (stripLangNL [] true) response_text)

/-! ## Coder (`builder/agents/coder.py`) -/

/-- What the LLM boundary did during one coder step.
* `reactOk fsAfter`: the tool-using react agent returned normally; its own
  tool calls left the project tree as `fsAfter` (the code does not inspect
  it).
* `reactErr hasMarker extracted fallback`: the react invocation raised.
  `hasMarker` is whether the error text contains "failed_generation";
  `extracted` is the `(path, content)` pair `extract_and_execute_tool_call`'s
  regex/JSON salvaging recovers from that error text (`none` when the
  pattern match or repair fails); `fallback` is the direct-generation
  response text, or `.error` when that call raised too.
* `outerExc`: an exception escaped to the outermost handler of the step. -/
inductive CoderOracle where
  | reactOk (fsAfter : FS)
  | reactErr (hasMarker : Bool) (extracted : Option (String × String)) (fallback : Except String String)
  | outerExc

/-- `extract_and_execute_tool_call`, applied to the parsed `(path, content)`
outcome of its payload salvaging: a nonempty pair is written through the
sandbox and success is judged from the tool message. -/
def extract_and_execute_tool_call (fs : FS) (extracted : Option (String × String)) : FS × Bool :=
  match extracted with
  | none => (fs, false)
  | some (path, content) =>
    if path ≠ "" && content ≠ "" then
      let r := write_file fs path content
      (r.1, containsSub r.2 "SUCCESS" || containsSub r.2 "Wrote")
    else (fs, false)

/-- The three escalating generation tiers of one coder step (lines
143-211): react agent, manual extraction from the malformed payload,
constrained direct generation.  Returns the project tree afterwards and
the `file_written` flag. -/
def coderTiers (o : CoderOracle) (fs : FS) (t : ImplementationTask) : FS × Bool :=
  match o with
  | .outerExc => (fs, false)
  | .reactOk fsAfter => (fsAfter, true)
  | .reactErr hasMarker extracted fallback =>
    let r1 := if hasMarker then extract_and_execute_tool_call fs extracted else (fs, false)
    if r1.2 then r1
    else
      match fallback with
      | .error _ => (r1.1, false)
      | .ok resp =>
        -- Python's `if extracted:` is a truthiness test: an extracted
        -- empty string leaves the full response in place
        let content0 :=
          match extract_code_from_response resp with
          | some e => if e ≠ "" then e else resp
          | none => resp
        let content1 := strTrim content0
        let content2 :=
          if strStartsWith content1 "```" then
            let lines := strSplitOn content1 "\n"
            if lines.length > 2 then strIntercalate "\n" ((lines.drop 1).dropLast)
            else content1
          else content1
        if content2 ≠ "" then
          let w := write_file r1.1 t.filepath content2
          (w.1, containsSub w.2 "SUCCESS")
        else (r1.1, false)

/-- Lines 213-224: exactly one of the two outcome lists receives the
step's filepath, then the index advances. -/
def coderAdvance (cs : CoderState) (t : ImplementationTask) (file_written : Bool) : CoderState :=
  let cs' :=
    if file_written then { cs with completed_files := cs.completed_files ++ [t.filepath] }
    else { cs with failed_files := cs.failed_files ++ [t.filepath] }
  { cs' with current_step_idx := cs'.current_step_idx + 1 }

/-- `coder_agent`: one engine invocation of the Coder stage. -/
def coder_agent (o : CoderOracle) (p : FS × PState) : FS × PState :=
  let fs := p.1
  let state := p.2
  match state.task_plan with
  | none =>
    (fs, { state with current_phase := some AgentPhase.FAILED, status := some "FAILED",
                      errors := some ["No task plan provided to coder"] })
  | some task_plan =>
    let cs := state.coder_state.getD { task_plan := task_plan }
    let steps := cs.task_plan.implementation_steps
    -- `steps[idx]? = none` is exactly the source's `current_step_idx >= len(steps)`
    match steps[cs.current_step_idx]? with
    | none =>
      (fs, { state with plan := state.plan, task_plan := some task_plan,
                        coder_state := some cs,
                        current_phase := some AgentPhase.CODING, status := some "coded" })
    | some t =>
      let r := coderTiers o fs t
      let cs2 := coderAdvance cs t r.2
      (r.1, { state with plan := state.plan, task_plan := some task_plan,
                         coder_state := some cs2,
                         current_phase := some AgentPhase.CODING,
                         status := some (if steps.length ≤ cs2.current_step_idx then "coded" else "coding") })

/-- Iterated coder invocations (the Coder self-loop), one oracle per pass. -/
def runCoder (os : List CoderOracle) (p : FS × PState) : FS × PState :=
  os.foldl (fun acc o => coder_agent o acc) p

/-! ## Fixer (`builder/agents/fixer.py`) -/

/-- `filepath.split(".")[-1].lower() if "." in filepath else ""`. -/
def fileExt (filepath : String) : String :=
  let parts := strSplitOn filepath "."
  if parts.length > 1 then strToLower (parts.getLast?.getD "") else ""

/-- The `lang_map` of the fixer's `extract_code_from_response`. -/
def langMap : List (String × List String) :=
  [("js", ["javascript", "js"]), ("py", ["python", "py"]),
   ("html", ["html"]), ("css", ["css"]), ("json", ["json"])]

/-- The fixer's `extract_code_from_response`: extension-specific fenced
patterns first, then the generic ones; first pattern with matches wins,
longest match within it. -/
def fixerExtractCode (file_extension : String) (response_text : String) : Option String :=
  let extPats : List (String → Option String) :=
    match langMap.find? (fun p => p.1 = file_extension) with
    | some q => q.2.map (fun l => stripLangNL [l] false)
    | none => []
  let pats := extPats ++ [stripLangNL fenceLangs true, stripLangNL [] true]
  pats.foldl (fun found pat =>
    match found with
    | some m => some m
    | none => maxByLen (fencedMatches pat response_text)) none

/-- `clean_code_response`: strip a wrapping fence pair if the trimmed text
starts with one. -/
def cleanCodeResponse (content : String) : String :=
  let c := strTrim content
  if strStartsWith c "```" then
    let lines := strSplitOn c "\n"
    let start_idx := if strStartsWith (lines.head?.getD "") "```" then 1 else 0
    let end_idx :=
      match lines.reverse.findIdx? (fun l => strTrim l = "```") with
      | some rj => lines.length - 1 - rj
      | none => lines.length
    strTrim (strIntercalate "\n" ((lines.take end_idx).drop start_idx))
  else c

/-- The fixed body the fixer derives from the raw LLM response (lines
217-223): trim, then fenced extraction, else fence-stripping fallback. -/
def processedFix (file_extension resp : String) : String :=
  let fixed0 := strTrim resp
  -- Python's `if extracted:` is a truthiness test, so an extracted empty
  -- string also falls back to the fence-stripping cleanup
  match fixerExtractCode file_extension fixed0 with
  | some e => if e ≠ "" then e else cleanCodeResponse fixed0
  | none => cleanCodeResponse fixed0

/-- One iteration of the fixer's per-candidate loop (lines 115-262),
threading the project tree and the `fixed_files` / `failed_fixes`
accumulators.  `respFor` is the corrective-generation boundary: the
response text for the file, or `.error msg` when the call raised.

Faithful to a slip in the source: when the current content is unreadable
the failure is recorded but the `continue` that would abort this file's
fix is commented out (line 154), so the code still builds the corrective
request and can write the generated body. -/
def fixOneFile (respFor : String → Except String String)
    (acc : FS × List String × List (String × String)) (r : CodeReview) :
    FS × List String × List (String × String) :=
  let fs := acc.1
  let fixed_files := acc.2.1
  let failed_fixes := acc.2.2
  let filepath := r.filepath
  let content := read_file fs filepath
  let failed1 :=
    if content = "" || strStartsWith content "ERROR" then
      failed_fixes ++ [(filepath, "Cannot read file")]
    else failed_fixes
  let original_length := content.length
  let ext := fileExt filepath
  match respFor filepath with
  | .error msg => (fs, fixed_files, failed1 ++ [(filepath, "Exception: " ++ strTake msg 100)])
  | .ok resp =>
    let fixed_content := processedFix ext resp
    if (strTrim fixed_content).length < 10 then
      (fs, fixed_files, failed1 ++ [(filepath, "Empty fix generated")])
    else if 10 * fixed_content.length < 3 * original_length then
      (fs, fixed_files, failed1 ++ [(filepath, "Fix too short, possible content loss")])
    else
      let w := write_file fs filepath fixed_content
      if containsSub w.2 "SUCCESS" then (w.1, fixed_files ++ [filepath], failed1)
      else (w.1, fixed_files, failed1 ++ [(filepath, "Write failed: " ++ w.2)])

/-- `fixer_agent`: partitions reviews into already-passed (skipped),
failed-with-no-issues (promoted to passed in place) and candidates, then
runs the per-candidate loop.  Fix outcomes are only reported; the
returned `ReviewState` keeps its `all_passed` / `iteration` untouched. -/
def fixer_agent (respFor : String → Except String String) (p : FS × PState) : FS × PState :=
  let fs := p.1
  let state := p.2
  match state.review_state with
  | none =>
    (fs, { state with current_phase := some AgentPhase.FIXING, status := some "fixed" })
  | some review_state =>
    let reviews' := review_state.reviews.map (fun r =>
      if !r.passed && r.issues.isEmpty then { r with passed := true } else r)
    let files_to_fix := review_state.reviews.filter (fun r => !r.passed && !r.issues.isEmpty)
    let out := files_to_fix.foldl (fixOneFile respFor) (fs, [], [])
    (out.1, { state with review_state := some { review_state with reviews := reviews' },
                         current_phase := some AgentPhase.FIXING, status := some "fixed" })

/-! ## Reviewer (`agent/agents/reviewer.py`) -/

/-- One pass of `re.sub` removing `**bold**` spans: at a "**" marker, a
nonempty run of non-"*" characters closed by "**" is replaced by the run;
otherwise the scan advances one character (fuel bounds the scan, one unit
per consumed character). -/
def removeBoldGo : Nat → List Char → List Char
  | 0, cs => cs
  | _ + 1, [] => []
  | fuel + 1, '*' :: '*' :: rest =>
    let inner := rest.takeWhile (fun c => c ≠ '*')
    let rest2 := rest.dropWhile (fun c => c ≠ '*')
    match inner, rest2 with
    | _ :: _, '*' :: '*' :: rest3 => inner ++ removeBoldGo fuel rest3
    | _, _ => '*' :: removeBoldGo fuel ('*' :: rest)
  | fuel + 1, c :: rest => c :: removeBoldGo fuel rest

/-- `re.sub(r"\*\*([^*]+)\*\*", r"\1", text)`. -/
def removeBold (s : String) : String :=
  String.mk (removeBoldGo (s.length + 1) s.data)

/-- Per line, `re.sub(r"\|[^\n]+\|", "", text)`: the greedy match runs
from the first "|" to the last "|" on the line provided at least one
character separates them (matches cannot cross newlines). -/
def removeTableLine (line : List Char) : List Char :=
  match line.findIdx? (fun c => c = '|'), line.reverse.findIdx? (fun c => c = '|') with
  | some i, some rj =>
    let j := line.length - 1 - rj
    if i + 2 ≤ j then line.take i ++ line.drop (j + 1) else line
  | _, _ => line

/-- Per line, `re.sub(r"^\s*[-#]+\s*", "", text, flags=re.MULTILINE)`
(the `\s` runs are modelled within the line; a `\s*` swallowing the
newline of an all-whitespace previous line is not reproduced). -/
def stripMarkersLine (line : List Char) : List Char :=
  let ws := line.dropWhile (fun c => c = ' ' || c = '\t')
  let ms := ws.dropWhile (fun c => c = '-' || c = '#')
  if ms.length < ws.length then ms.dropWhile (fun c => c = ' ' || c = '\t')
  else line

/-- `re.sub(r"\n{3,}", "\n\n", text)`: single pass tracking the pending
newline-run length. -/
def collapseNLGo : List Char → Nat → List Char
  | [], n => List.replicate (min n 2) '\n'
  | '\n' :: rest, n => collapseNLGo rest (n + 1)
  | c :: rest, n => List.replicate (min n 2) '\n' ++ c :: collapseNLGo rest 0

/-- `clean_review_response`: strip markdown bold, table rows, leading
list/heading markers, collapse blank-line runs, trim. -/
def cleanReviewResponse (text : String) : String :=
  let t1 := removeBold text
  let t2 := strIntercalate "\n" ((strSplitOn t1 "\n").map (fun l => String.mk (removeTableLine l.data)))
  let t3 := strIntercalate "\n" ((strSplitOn t2 "\n").map (fun l => String.mk (stripMarkersLine l.data)))
  strTrim (String.mk (collapseNLGo t3.data 0))

/-- The issue-indicating keywords of `extract_issues_from_response`. -/
def issueKeywords : List String :=
  ["issue", "error", "missing", "incorrect", "should", "need", "fix", "add", "remove", "change"]

/-- `extract_issues_from_response`: scan the cleaned response's lines for
issue-like sentences, keeping at most five. -/
def extractIssuesFromResponse (response_text : String) : List String :=
  let cleaned := cleanReviewResponse response_text
  let lines := strSplitOn cleaned "\n"
  let issues := lines.foldl (fun acc l =>
    let line := strTrim l
    if line.length < 10 then acc
    else if strStartsWith (strToUpper line) "PASS" || strStartsWith (strToUpper line) "FAIL" then acc
    else if strStartsWith line "Result:" || strStartsWith line "Issues" then acc
    else if issueKeywords.any (fun w => containsSub (strToLower line) w) then
      if line.length > 15 && line.length < 300 then acc ++ [line] else acc
    else acc) []
  issues.take 5

/-- What the LLM boundary did while reviewing one file.
* `structured`: `some r` when `with_structured_output` returned `r`
  (Python may hand back `None`, hence the inner `Option`); `none` when it
  raised.
* `recovered`: what `parse_review_from_error` salvages from the raised
  error's text — `none` covers both a missing "failed_generation" marker
  and a failed parse.
* `simple`: the minimal PASS/FAIL protocol response text, `.error msg`
  when that call raised (caught by the per-file handler). -/
structure FileReviewOracle where
  structured : Option (Option CodeReview)
  recovered : Option CodeReview
  simple : Except String String

/-- The issue synthesized when a failed review leaves the stage with an
empty issue list (lines 293-301). -/
def unspecifiedIssue (filepath : String) : CodeIssue :=
  { issue_type := "unspecified"
    description := "Review failed for " ++ filepath ++ " without specific issues"
    suggestion := "Manual review recommended"
    severity := ReviewSeverity.medium }

/-- Upgrade a failed review with zero issues before it leaves the stage. -/
def patchReview (filepath : String) (r : CodeReview) : CodeReview :=
  if !r.passed && r.issues.isEmpty then { r with issues := [unspecifiedIssue filepath] } else r

/-- The automatic critical failure for a missing or empty file (lines
188-202). -/
def missingReview (filepath : String) : CodeReview :=
  { filepath := filepath
    issues := [{ issue_type := "missing"
                 description := "File does not exist or is empty"
                 suggestion := "Ensure the file is created with proper content"
                 severity := ReviewSeverity.critical }]
    passed := false
    overall_quality := 0
    summary := "File missing or empty" }

/-- The minimal PASS/FAIL fallback protocol (lines 219-291): classify the
first line, then synthesize at most two extracted issues or one generic
issue. -/
def simpleProtocolReview (filepath response : String) : CodeReview :=
  let response_text := strTrim response
  let lines := strSplitOn response_text "\n"
  let first_line := strToUpper (strTrim (lines.head?.getD ""))
  let is_pass := first_line == "PASS" ||
    (strStartsWith first_line "PASS" && !containsSub first_line "FAIL")
  let issues : List CodeIssue :=
    if is_pass then []
    else
      let extracted := extractIssuesFromResponse response_text
      if !extracted.isEmpty then
        (extracted.take 2).map (fun t =>
          { issue_type := "quality"
            description := strTake t 200
            suggestion := "Fix the identified issue"
            severity := ReviewSeverity.medium : CodeIssue })
      else
        let second_line := cleanReviewResponse (strTrim ((lines.drop 1).head?.getD ""))
        let issue_desc :=
          if second_line ≠ "" && second_line.length > 10 && second_line.length < 200 then second_line
          else "Code review failed for " ++ filepath
        [{ issue_type := "quality"
           description := issue_desc
           suggestion := "Review and fix the code"
           severity := ReviewSeverity.medium }]
  { filepath := filepath
    issues := issues
    passed := is_pass
    overall_quality := if is_pass then 7 else 5
    summary := if is_pass then "PASS" else "FAIL" }

/-- Lines 208-324: one file's review attempt — structured output, then
recovery from the raised error, then the simple protocol, with the
zero-issue upgrade applied before the record is appended; an exception
during the simple call degrades to a passed review (lines 315-324). -/
def reviewSingleFile (o : FileReviewOracle) (filepath : String) : CodeReview :=
  let review0 : Option CodeReview :=
    match o.structured with
    | some r => r
    | none => o.recovered
  match review0 with
  | some r => patchReview filepath r
  | none =>
    match o.simple with
    | .error msg =>
      { filepath := filepath, issues := [], passed := true, overall_quality := 6,
        summary := "Review error: " ++ strTake msg 50 }
    | .ok resp => patchReview filepath (simpleProtocolReview filepath resp)

/-- Insertion-ordered dict update, as Python dicts behave: a present key
keeps its position and takes the new value, a new key is appended. -/
def dictInsert (acc : List (String × CodeReview)) (k : String) (v : CodeReview) :
    List (String × CodeReview) :=
  if acc.any (fun q => q.1 = k) then acc.map (fun q => if q.1 = k then (k, v) else q)
  else acc ++ [(k, v)]

/-- The body of the reviewer's per-step loop (lines 174-324): preserved
reviews are appended verbatim, files outside the review queue are
skipped, missing/empty content short-circuits to a critical failure, and
otherwise the file goes through the tiered review attempt.  The `Bool`
accumulator is the loop's `all_passed` flag. -/
def reviewStepFold (fs : FS) (oracle : String → FileReviewOracle)
    (preserved : List (String × CodeReview)) (files_to_review : List String)
    (acc : List CodeReview × Bool) (step : ImplementationTask) : List CodeReview × Bool :=
  let filepath := step.filepath
  match preserved.find? (fun q => q.1 = filepath) with
  | some q => (acc.1 ++ [q.2], acc.2)
  | none =>
    if !files_to_review.contains filepath then acc
    else
      let content := read_file fs filepath
      if content = "" || strStartsWith content "ERROR" || (strTrim content).length < 5 then
        (acc.1 ++ [missingReview filepath], false)
      else
        let r := reviewSingleFile (oracle filepath) filepath
        (acc.1 ++ [r], acc.2 && r.passed)

/-- `reviewer_agent`: one engine invocation of the Reviewer stage.
`oracle` gives the LLM boundary's behaviour per filepath. -/
def reviewer_agent (fs : FS) (oracle : String → FileReviewOracle) (state : PState) : PState :=
  let csOpt : Option CoderState :=
    match state.coder_state, state.task_plan with
    | some cs, _ => some cs
    | none, some tp =>
      some { task_plan := tp
             current_step_idx := tp.implementation_steps.length
             completed_files := tp.implementation_steps.map (fun s => s.filepath)
             failed_files := [] }
    | none, none => none
  match csOpt with
  | none =>
    { state with current_phase := some AgentPhase.FAILED, status := some "FAILED",
                 errors := some ["No coder state or task plan available"] }
  | some coder_state =>
    let fresh : ReviewState × List String × List (String × CodeReview) :=
      match state.review_state with
      | none =>
        ({ reviews := [], iteration := 0, max_iterations := 5 },
         coder_state.task_plan.implementation_steps.map (fun s => s.filepath),
         [])
      | some ex =>
        ({ reviews := [], iteration := ex.iteration + 1, max_iterations := ex.max_iterations },
         (ex.reviews.filter (fun r => !r.passed)).map (fun r => r.filepath),
         ex.reviews.foldl (fun acc r => if r.passed then dictInsert acc r.filepath r else acc) [])
    let review_state0 := fresh.1
    let files_to_review := fresh.2.1
    let preserved := fresh.2.2
    if review_state0.iteration ≥ review_state0.max_iterations then
      { state with coder_state := some coder_state,
                   review_state := some { review_state0 with
                     reviews := preserved.map (fun q => q.2), all_passed := true },
                   current_phase := some AgentPhase.REVIEWING,
                   status := some "review_max_iterations" }
    else
      let steps := coder_state.task_plan.implementation_steps
      let outcome := steps.foldl (reviewStepFold fs oracle preserved files_to_review) ([], true)
      { state with coder_state := some coder_state,
                   review_state := some { review_state0 with
                     reviews := outcome.1, all_passed := outcome.2 },
                   current_phase := some AgentPhase.REVIEWING,
                   status := some "reviewed" }

/-! ## Concrete fixtures used by counterexamples and witnesses -/

/-- Scenario A's plan: three files, no priorities supplied anywhere. -/
def scenarioAPlan : Plan :=
  { name := "p", description := "d", techstack := "html/css/js", features := ["f1"],
    files := [{ path := "index.html", purpose := "markup" },
              { path := "style.css", purpose := "styling" },
              { path := "script.js", purpose := "logic" }] }

/-- A one-step task plan. -/
def tpOne : TaskPlan :=
  { implementation_steps := [{ filepath := "app.js", task_description := "write app.js" }] }

/-- A task plan whose two steps target the same filepath. -/
def tpDup : TaskPlan :=
  { implementation_steps := [{ filepath := "app.js", task_description := "first attempt" },
                             { filepath := "app.js", task_description := "second attempt" }] }

/-- Fresh pipeline state over `tpOne`. -/
def stOne : PState := { task_plan := some tpOne }

/-- Fresh pipeline state over `tpDup`. -/
def stDup : PState := { task_plan := some tpDup }

/-- A failed review of "app.js" carrying one issue. -/
def reviewFailOne : CodeReview :=
  { filepath := "app.js", passed := false,
    issues := [{ issue_type := "logic", description := "broken handler", suggestion := "fix it",
                 severity := ReviewSeverity.medium }] }

/-- C5 counterexample: on the Scenario A plan the fallback synthesizer
does not produce the claimed priorities (0, 2, 3) — `index.html` is
mapped to 1 by the extension table, not 0. -/
theorem fallback_scenarioA_cex :
    (create_fallback_task_plan scenarioAPlan).implementation_steps.map
      (fun t => (t.filepath, t.priority)) ≠
    [("index.html", 0), ("style.css", 2), ("script.js", 3)] := by
  decide

/-- C5 (amended): on the Scenario A plan the fallback synthesizer assigns
`index.html` priority 1, `style.css` priority 2, `script.js` priority 3,
and returns the steps sorted in that order. -/
theorem fallback_scenarioA :
    (create_fallback_task_plan scenarioAPlan).implementation_steps.map
      (fun t => (t.filepath, t.priority)) =
    [("index.html", 1), ("style.css", 2), ("script.js", 3)] := by
  decide

/-! ## C9 — the review iteration cap's default -/

/-- C9 counterexample: a `ReviewState` created without an explicit
`max_iterations` gets the model default 3, not 5. -/
theorem review_state_default_cex : defaultReviewState.max_iterations ≠ 5 := by
  decide

/-- C9 (amended): the `ReviewState` model default for `max_iterations` is
3; the cap of 5 comes from the reviewer stage, which constructs every
fresh `ReviewState` with an explicit `max_iterations=5`. -/
theorem review_cap_default (fs : FS) (oracle : String → FileReviewOracle)
    (state : PState) (cs : CoderState)
    (hnew : state.review_state = none)
    (hcs : state.coder_state = some cs) :
    defaultReviewState.max_iterations = 3 ∧
    ∃ rs', (reviewer_agent fs oracle state).review_state = some rs' ∧ rs'.max_iterations = 5 := by
  refine ⟨rfl, ?_⟩
  simp only [reviewer_agent, hnew, hcs]
  exact ⟨_, rfl, rfl⟩

/-- C9 witness: the amended theorem at a concrete fresh state. -/
theorem review_cap_default_witness :
    defaultReviewState.max_iterations = 3 ∧
    ∃ rs', (reviewer_agent emptyFS (fun _ => ⟨some none, none, Except.error "e"⟩)
              { task_plan := some tpOne,
                coder_state := some { task_plan := tpOne, current_step_idx := 1,
                                      completed_files := ["app.js"] } }).review_state =
             some rs' ∧ rs'.max_iterations = 5 :=
  review_cap_default emptyFS (fun _ => ⟨some none, none, Except.error "e"⟩) _ _ rfl rfl

/-! ## C8 — sandboxed path validation -/

/-- C8 counterexample: the absolute path "/etc/passwd" is not rejected —
`safe_path_for_project` reduces it to its basename under the project
root and accepts it. -/
theorem safe_path_absolute_cex :
    safe_path_for_project "/etc/passwd" = Except.ok ["generated_project", "passwd"] := by
  rfl

/-- C8 (amended): every accepted path lies within the project root, and
relative traversal escaping the root is rejected; absolute path
arguments, however, are not rejected — they are reduced to their final
component and resolved directly under the root. -/
theorem safe_path_containment :
    (∀ path p, safe_path_for_project path = Except.ok p → rootParts.isPrefixOf p = true) ∧
    (∀ path p, strStartsWith path "/" = true → safe_path_for_project path = Except.ok p →
       p = rootParts ++ pathNameParts path) ∧
    safe_path_for_project "../escape" =
      Except.error "Security Error: Attempt to access path outside project root: ../escape" := by
  refine ⟨?_, ?_, by rfl⟩
  · intro path p h
    simp only [safe_path_for_project] at h
    split at h
    · split at h
      · rename_i hpre; injection h with h'; rw [← h']; exact hpre
      · exact Except.noConfusion h
    · split at h
      · rename_i hpre; injection h with h'; rw [← h']; exact hpre
      · exact Except.noConfusion h
  · intro path p habs h
    simp only [safe_path_for_project] at h
    split at h
    case isFalse hf => exact absurd habs hf
    case isTrue =>
      rcases hnp : (pathParts path).getLast? with _ | c
      · have e : pathNameParts path = [] := by unfold pathNameParts; rw [hnp]
        rw [e] at h ⊢
        have e2 : normalizeParts (rootParts ++ []) = rootParts := by decide
        rw [e2] at h
        split at h
        · injection h with h'; rw [← h']; rfl
        · exact Except.noConfusion h
      · have e : pathNameParts path = [c] := by unfold pathNameParts; rw [hnp]
        have hcmem : c ∈ pathParts path := by
          obtain ⟨hne, heq⟩ := List.mem_getLast?_eq_getLast (by rw [hnp]; rfl)
          rw [heq]; exact List.getLast_mem hne
        have hc : ¬(c = "") ∧ ¬(c = ".") := by
          have := List.of_mem_filter hcmem
          simpa using this
        rw [e] at h ⊢
        by_cases hdd : c = ".."
        · subst hdd
          have e2 : normalizeParts (rootParts ++ [".."]) = [] := by decide
          rw [e2] at h
          split at h
          · rename_i hpre; exact absurd hpre (by decide)
          · exact Except.noConfusion h
        · have e2 : normalizeParts (rootParts ++ [c]) = rootParts ++ [c] := by
            simp [normalizeParts, rootParts, hc.2, hdd]
          rw [e2] at h
          split at h
          · injection h with h'; exact h'.symm
          · rename_i hpre
            refine absurd ?_ hpre
            simp [rootParts, List.isPrefixOf]

/-- C8 witness: the amended theorem applied at "a/b" (containment) and at
"/etc/passwd" (absolute-to-basename). -/
theorem safe_path_containment_witness :
    rootParts.isPrefixOf ["generated_project", "a", "b"] = true ∧
    ["generated_project", "passwd"] = rootParts ++ pathNameParts "/etc/passwd" :=
  ⟨safe_path_containment.1 "a/b" ["generated_project", "a", "b"] rfl,
   safe_path_containment.2.1 "/etc/passwd" ["generated_project", "passwd"] rfl rfl⟩

/-! ## C10 — a completed step without a file on disk -/

/-- One coder step over `tpOne` where the primary tool-using tier returns
without raising and without having written anything. -/
def coderPrimaryRun : FS × PState :=
  coder_agent (CoderOracle.reactOk emptyFS) (emptyFS, stOne)

/-- C10: when the react tier returns without an exception the step's
filepath is marked completed with no check that the file exists — here
"app.js" lands in `completed_files` while the project tree has no
non-empty "app.js" at all. -/
theorem coder_marks_completed_without_file :
    (coderPrimaryRun.2.coder_state.map (fun cs => cs.completed_files)) = some ["app.js"] ∧
    read_file coderPrimaryRun.1 "app.js" = "" := by
  decide

/-! ## C3 — routing after the Reviewer -/

/-- C3: the post-Reviewer router selects Fixer iff not all files passed
and the iteration counter is below the cap; when all passed or the cap
was reached it selects TestGenerator. -/
theorem route_after_review_spec (state : PState) (rs : ReviewState)
    (h : state.review_state = some rs) :
    (route_after_review state = "fixer" ↔
      rs.all_passed = false ∧ rs.iteration < rs.max_iterations) ∧
    ((rs.all_passed = true ∨ rs.iteration ≥ rs.max_iterations) →
      route_after_review state = "test_generator") := by
  simp only [route_after_review, h]
  cases hp : rs.all_passed
  · by_cases hi : rs.iteration ≥ rs.max_iterations
    · rw [if_neg (by simp), if_pos hi]
      constructor
      · exact ⟨fun he => absurd he (by decide), fun hh => absurd hi (by omega)⟩
      · exact fun _ => rfl
    · rw [if_neg (by simp), if_neg hi]
      constructor
      · exact ⟨fun _ => ⟨rfl, by omega⟩, fun _ => rfl⟩
      · intro hc
        rcases hc with hc | hc
        · exact Bool.noConfusion hc
        · exact absurd hc hi
  · rw [if_pos rfl]
    constructor
    · exact ⟨fun he => absurd he (by decide), fun hh => Bool.noConfusion hh.1⟩
    · exact fun _ => rfl

/-- A mid-loop review state: one failure, iteration 2 of 5. -/
def rsRouteW : ReviewState :=
  { reviews := [reviewFailOne], iteration := 2, max_iterations := 5, all_passed := false }

/-- C3 witness: the routing theorem at `rsRouteW`. -/
theorem route_after_review_spec_witness :
    (route_after_review { review_state := some rsRouteW } = "fixer" ↔
      rsRouteW.all_passed = false ∧ rsRouteW.iteration < rsRouteW.max_iterations) ∧
    ((rsRouteW.all_passed = true ∨ rsRouteW.iteration ≥ rsRouteW.max_iterations) →
      route_after_review { review_state := some rsRouteW } = "test_generator") :=
  route_after_review_spec { review_state := some rsRouteW } rsRouteW rfl

/-! ## C6 — the fixer's fix-rejection safety checks -/

/-- The fixer's per-candidate loop run on a candidate whose file does not
exist (the read yields ""), with a generation response of 37 characters. -/
def fixUnreadableRun : FS × List String × List (String × String) :=
  fixOneFile (fun _ => Except.ok "This replacement body is long enough.") (emptyFS, [], []) reviewFailOne

/-- C7 (code bug witness): the failure reason "Cannot read file" is
recorded, yet — because the `continue` on line 154 of
`builder/agents/fixer.py` is commented out — the loop still builds the
corrective request, and with `original_length = 0` the 30% guard cannot
fire, so the generated body is written and the file is even reported as
fixed. -/
theorem fixer_unreadable_still_writes :
    fixUnreadableRun.2.2 = [("app.js", "Cannot read file")] ∧
    fixUnreadableRun.2.1 = ["app.js"] ∧
    read_file fixUnreadableRun.1 "app.js" = "This replacement body is long enough." := by
  decide

/-! ## C1 — the iteration cap forces acceptance -/

/-- C1: given any ReviewState whose iteration counter is at or above its
cap, one reviewer invocation returns a ReviewState with
`all_passed = true`, whatever the project tree and the LLM boundary do
(the incremented counter is still at or above the cap, so the
forced-acceptance branch fires). -/
theorem reviewer_cap_forces_all_passed (fs : FS) (oracle : String → FileReviewOracle)
    (state : PState) (rs : ReviewState)
    (hrs : state.review_state = some rs)
    (hcap : rs.iteration ≥ rs.max_iterations)
    (hin : state.coder_state.isSome = true ∨ state.task_plan.isSome = true) :
    ∃ rs', (reviewer_agent fs oracle state).review_state = some rs' ∧ rs'.all_passed = true := by
  cases hcs : state.coder_state with
  | some cs =>
    simp only [reviewer_agent, hcs, hrs]
    rw [if_pos (by omega)]
    exact ⟨_, rfl, rfl⟩
  | none =>
    cases htp : state.task_plan with
    | some tp =>
      simp only [reviewer_agent, hcs, htp, hrs]
      rw [if_pos (by omega)]
      exact ⟨_, rfl, rfl⟩
    | none =>
      rcases hin with hin | hin
      · rw [hcs] at hin; exact Bool.noConfusion hin
      · rw [htp] at hin; exact Bool.noConfusion hin

/-- A review state already at the cap (iteration 5 of 5). -/
def rsCapW : ReviewState := { reviews := [], iteration := 5, max_iterations := 5 }

/-- A pipeline state carrying `rsCapW` into the reviewer. -/
def stCapW : PState :=
  { task_plan := some tpOne,
    coder_state := some { task_plan := tpOne, current_step_idx := 1,
                          completed_files := ["app.js"] },
    review_state := some rsCapW }

/-- An LLM boundary that fails every call. -/
def oracleErrW : String → FileReviewOracle :=
  fun _ => ⟨some none, none, Except.error "boom"⟩

/-- C1 witness: the cap theorem at iteration 5 of 5 over an empty tree
and an always-failing boundary. -/
theorem reviewer_cap_forces_all_passed_witness :
    ∃ rs', (reviewer_agent emptyFS oracleErrW stCapW).review_state = some rs' ∧
      rs'.all_passed = true :=
  reviewer_cap_forces_all_passed emptyFS oracleErrW stCapW rsCapW rfl (by decide) (Or.inl rfl)

/-! ## C4 — failed reviews carry at least one issue -/

/-- The zero-issue upgrade really guarantees the invariant. -/
theorem patchReview_issues (fp : String) (r : CodeReview)
    (h : (patchReview fp r).passed = false) : (patchReview fp r).issues ≠ [] := by
  by_cases hc : (!r.passed && r.issues.isEmpty) = true
  · simp [patchReview, hc]
  · unfold patchReview at h ⊢
    rw [if_neg hc] at h ⊢
    intro he
    apply hc
    simp [h, he]

/-- Every review a single file's attempt can produce satisfies the
invariant: the structured/recovered/simple paths are patched, and the
exception path is a passed review. -/
theorem reviewSingleFile_issues (o : FileReviewOracle) (fp : String)
    (h : (reviewSingleFile o fp).passed = false) : (reviewSingleFile o fp).issues ≠ [] := by
  obtain ⟨os, orec, osim⟩ := o
  rcases os with _ | or'
  · rcases orec with _ | r
    · rcases osim with msg | resp
      · simp [reviewSingleFile] at h
      · simp only [reviewSingleFile] at h ⊢
        exact patchReview_issues _ _ h
    · simp only [reviewSingleFile] at h ⊢
      exact patchReview_issues _ _ h
  · rcases or' with _ | r
    · rcases osim with msg | resp
      · simp [reviewSingleFile] at h
      · simp only [reviewSingleFile] at h ⊢
        exact patchReview_issues _ _ h
    · simp only [reviewSingleFile] at h ⊢
      exact patchReview_issues _ _ h

/-- `dictInsert` keeps "every stored review passed". -/
theorem dictInsert_passed (acc : List (String × CodeReview)) (k : String) (v : CodeReview)
    (hacc : ∀ q ∈ acc, q.2.passed = true) (hv : v.passed = true) :
    ∀ q ∈ dictInsert acc k v, q.2.passed = true := by
  intro q hq
  unfold dictInsert at hq
  split at hq
  · rcases List.mem_map.mp hq with ⟨p, hp, he⟩
    by_cases hpk : p.1 = k
    · simp only [hpk, if_true] at he
      rw [← he]; exact hv
    · rw [if_neg hpk] at he
      rw [← he]; exact hacc p hp
  · rcases List.mem_append.mp hq with hq | hq
    · exact hacc q hq
    · simp at hq; rw [hq]; exact hv

/-- Every review the preservation dict holds passed its last review. -/
theorem preservedFold_passed (l : List CodeReview) (acc : List (String × CodeReview))
    (hacc : ∀ q ∈ acc, q.2.passed = true) :
    ∀ q ∈ l.foldl (fun acc r => if r.passed then dictInsert acc r.filepath r else acc) acc,
      q.2.passed = true := by
  induction l generalizing acc with
  | nil => exact hacc
  | cons r l ih =>
    simp only [List.foldl_cons]
    by_cases hr : r.passed
    · rw [if_pos hr]
      exact ih _ (dictInsert_passed acc r.filepath r hacc hr)
    · rw [if_neg hr]
      exact ih _ hacc

/-- The per-step loop preserves the invariant over its accumulator. -/
theorem reviewFold_issues (fs : FS) (oracle : String → FileReviewOracle)
    (preserved : List (String × CodeReview)) (ftr : List String)
    (hpres : ∀ q ∈ preserved, q.2.passed = true)
    (steps : List ImplementationTask) (acc : List CodeReview × Bool)
    (hacc : ∀ r ∈ acc.1, r.passed = false → r.issues ≠ []) :
    ∀ r ∈ (steps.foldl (reviewStepFold fs oracle preserved ftr) acc).1,
      r.passed = false → r.issues ≠ [] := by
  induction steps generalizing acc with
  | nil => exact hacc
  | cons step steps ih =>
    simp only [List.foldl_cons]
    apply ih
    simp only [reviewStepFold]
    split
    · rename_i q hq
      intro r hr
      rcases List.mem_append.mp hr with hr | hr
      · exact hacc r hr
      · simp at hr
        intro hpf
        have := hpres q (List.mem_of_find?_eq_some hq)
        rw [hr] at hpf
        rw [this] at hpf
        exact Bool.noConfusion hpf
    · split
      · exact hacc
      · split
        · intro r hr
          rcases List.mem_append.mp hr with hr | hr
          · exact hacc r hr
          · simp at hr
            intro _
            rw [hr]
            simp [missingReview]
        · intro r hr
          rcases List.mem_append.mp hr with hr | hr
          · exact hacc r hr
          · simp at hr
            rw [hr]
            exact reviewSingleFile_issues _ _

/-- C4: every CodeReview in the ReviewState the reviewer returns has a
non-empty issue list whenever its passed flag is false. -/
theorem reviewer_failed_reviews_have_issues (fs : FS) (oracle : String → FileReviewOracle)
    (state : PState) (rs' : ReviewState)
    (hin : state.coder_state.isSome = true ∨ state.task_plan.isSome = true)
    (h : (reviewer_agent fs oracle state).review_state = some rs') :
    ∀ r ∈ rs'.reviews, r.passed = false → r.issues ≠ [] := by
  rcases hcs : state.coder_state with _ | cs <;> rcases htp : state.task_plan with _ | tp <;>
    simp only [reviewer_agent, hcs, htp] at h
  · rw [hcs] at hin; rw [htp] at hin
    simp at hin
  all_goals {
    rcases hrev : state.review_state with _ | ex <;> simp only [hrev] at h <;> split at h <;>
      injection h with h' <;> rw [← h'] <;> intro r hr
    case _ =>
      simp at hr
    case _ =>
      revert r hr
      exact reviewFold_issues fs oracle [] _ (by intro q hq; simp at hq) _ ([], true) (by simp)
    case _ =>
      rcases List.mem_map.mp hr with ⟨q, hq, he⟩
      intro hpf
      have := preservedFold_passed ex.reviews [] (by intro q hq; simp at hq) q hq
      rw [← he, this] at hpf
      exact Bool.noConfusion hpf
    case _ =>
      revert r hr
      exact reviewFold_issues fs oracle _ _
        (preservedFold_passed ex.reviews [] (by intro q hq; simp at hq)) _ ([], true) (by simp)
  }

/-- A project tree holding a short but non-empty "app.js". -/
def fsApp : FS :=
  fun p => if p = ["generated_project", "app.js"] then some "console.log(1);" else none

/-- A structured review that fails with an empty issue list — the exact
shape the zero-issue upgrade exists for. -/
def oracleFailEmpty : String → FileReviewOracle :=
  fun fp => ⟨some (some { filepath := fp, issues := [], passed := false, overall_quality := 3 }),
             none, Except.error "x"⟩

/-- A fresh pipeline state whose coder finished `tpOne`. -/
def stReviewW : PState :=
  { task_plan := some tpOne,
    coder_state := some { task_plan := tpOne, current_step_idx := 1,
                          completed_files := ["app.js"] } }

/-- The review state that run returns. -/
def rsReviewW : ReviewState :=
  ((reviewer_agent fsApp oracleFailEmpty stReviewW).review_state).getD defaultReviewState

/-- The first review of that run: failed, originally with zero issues. -/
def reviewHeadW : CodeReview := rsReviewW.reviews.head?.getD reviewFailOne

/-- C4 witness: the invariant theorem at a concrete run whose structured
review came back failed with zero issues — the returned record has a
non-empty issue list. -/
theorem reviewer_failed_reviews_have_issues_witness : reviewHeadW.issues ≠ [] :=
  reviewer_failed_reviews_have_issues fsApp oracleFailEmpty stReviewW rsReviewW (Or.inl rfl) rfl
    reviewHeadW (by decide) (by decide)

/-! ## C2 — the coder's coverage invariant -/

/-- The CoderState coverage invariant: the index never passes the step
count, and the two outcome lists together hold exactly the filepaths of
the first `current_step_idx` steps (as a multiset). -/
def coderInvariant (cs : CoderState) : Prop :=
  cs.current_step_idx ≤ cs.task_plan.implementation_steps.length ∧
  ((cs.completed_files : Multiset String) + (cs.failed_files : Multiset String) =
    (((cs.task_plan.implementation_steps.take cs.current_step_idx).map
        (fun t => t.filepath)) : Multiset String))

/-- Advancing one step — whichever outcome list receives the filepath —
preserves the coverage invariant. -/
theorem coderAdvance_inv (cs : CoderState) (t : ImplementationTask)
    (hinv : coderInvariant cs)
    (ht : cs.task_plan.implementation_steps[cs.current_step_idx]? = some t) (b : Bool) :
    coderInvariant (coderAdvance cs t b) := by
  obtain ⟨h1, h2⟩ := hinv
  have hlt : cs.current_step_idx < cs.task_plan.implementation_steps.length := by
    by_contra hge
    rw [List.getElem?_eq_none (by omega)] at ht
    exact Option.noConfusion ht
  have htake : (cs.task_plan.implementation_steps.take (cs.current_step_idx + 1)).map
      (fun s => s.filepath) =
      (cs.task_plan.implementation_steps.take cs.current_step_idx).map (fun s => s.filepath) ++
      [t.filepath] := by
    rw [List.take_succ, ht]
    simp only [Option.toList_some, List.map_append, List.map_cons, List.map_nil]
  unfold coderAdvance coderInvariant
  cases b
  · simp only [Bool.false_eq_true, if_false]
    refine ⟨by omega, ?_⟩
    rw [htake, ← Multiset.coe_add, ← Multiset.coe_add, ← h2]
    exact (add_assoc _ _ _).symm
  · simp only [if_true]
    refine ⟨by omega, ?_⟩
    rw [htake, ← Multiset.coe_add, ← Multiset.coe_add, ← h2]
    exact add_right_comm _ _ _

/-- One coder invocation preserves the coverage invariant. -/
theorem coder_agent_inv (o : CoderOracle) (fs : FS) (st : PState)
    (h : ∀ cs, st.coder_state = some cs → coderInvariant cs) :
    ∀ cs', (coder_agent o (fs, st)).2.coder_state = some cs' → coderInvariant cs' := by
  intro cs' hcs'
  rcases htp : st.task_plan with _ | tp
  · simp only [coder_agent, htp] at hcs'
    exact h cs' hcs'
  · rcases hcs : st.coder_state with _ | cs0 <;>
      simp only [coder_agent, htp, hcs, Option.getD_some, Option.getD_none] at hcs'
    · have hfresh : coderInvariant { task_plan := tp } := ⟨Nat.zero_le _, by simp⟩
      rcases hstep : ({ task_plan := tp : CoderState }).task_plan.implementation_steps[({ task_plan := tp : CoderState }).current_step_idx]? with _ | t <;>
        rw [hstep] at hcs' <;> injection hcs' with h' <;> rw [← h']
      · exact hfresh
      · exact coderAdvance_inv _ t hfresh hstep _
    · have h0 := h cs0 hcs
      rcases hstep : cs0.task_plan.implementation_steps[cs0.current_step_idx]? with _ | t <;>
        rw [hstep] at hcs' <;> injection hcs' with h' <;> rw [← h']
      · exact h0
      · exact coderAdvance_inv _ t h0 hstep _

/-- Any number of coder invocations preserves the coverage invariant. -/
theorem runCoder_inv (os : List CoderOracle) (fs : FS) (st : PState)
    (h : ∀ cs, st.coder_state = some cs → coderInvariant cs) :
    ∀ cs', (runCoder os (fs, st)).2.coder_state = some cs' → coderInvariant cs' := by
  induction os generalizing fs st with
  | nil => exact h
  | cons o os ih =>
    have h1 := coder_agent_inv o fs st h
    rcases e : coder_agent o (fs, st) with ⟨fs1, st1⟩
    rw [e] at h1
    intro cs' hcs'
    refine ih fs1 st1 h1 cs' ?_
    simpa [runCoder, e] using hcs'

/-- C2 (amended): after any number of coder invocations from a state
satisfying the invariant (a fresh CoderState in particular),
`len(completed_files) + len(failed_files) = current_step_idx` always
holds, and the two lists are disjoint as sets provided the task plan's
step filepaths are pairwise distinct (each attempted step contributes its
filepath to exactly one of the two lists, so with duplicated step
filepaths the lists can share an element). -/
theorem coder_coverage_invariant (os : List CoderOracle) (fs : FS) (st : PState)
    (h : ∀ cs, st.coder_state = some cs → coderInvariant cs) :
    ∀ cs', (runCoder os (fs, st)).2.coder_state = some cs' →
      cs'.completed_files.length + cs'.failed_files.length = cs'.current_step_idx ∧
      ((cs'.task_plan.implementation_steps.map (fun t => t.filepath)).Nodup →
        ∀ x ∈ cs'.completed_files, x ∉ cs'.failed_files) := by
  intro cs' hcs'
  obtain ⟨h1, h2⟩ := runCoder_inv os fs st h cs' hcs'
  constructor
  · have hcard := congrArg Multiset.card h2
    rw [Multiset.card_add] at hcard
    simp only [Multiset.coe_card, List.length_map, List.length_take] at hcard
    omega
  · intro hnodup x hxc hxf
    have hc1 : 0 < cs'.completed_files.count x := List.count_pos_iff.mpr hxc
    have hf1 : 0 < cs'.failed_files.count x := List.count_pos_iff.mpr hxf
    have hsub : List.Sublist
        ((cs'.task_plan.implementation_steps.take cs'.current_step_idx).map
          (fun t => t.filepath))
        (cs'.task_plan.implementation_steps.map (fun t => t.filepath)) := by
      rw [List.map_take]
      exact List.take_sublist _ _
    have hle := List.nodup_iff_count_le_one.mp (List.Nodup.sublist hsub hnodup) x
    have hcnt := congrArg (Multiset.count x) h2
    rw [Multiset.count_add, Multiset.coe_count, Multiset.coe_count, Multiset.coe_count] at hcnt
    omega

/-- Two coder passes over `tpDup` (same filepath twice): the first fails
at the outermost handler, the second succeeds. -/
def coderDupRun : FS × PState :=
  runCoder [CoderOracle.outerExc, CoderOracle.reactOk emptyFS] (emptyFS, stDup)

/-- The CoderState those two passes produce. -/
def coderDupCS : CoderState := (coderDupRun.2.coder_state).getD { task_plan := tpDup }

/-- C2 counterexample: with a task plan whose two steps target the same
filepath, one failed and one completed attempt leave "app.js" in both
lists — `completed_files` and `failed_files` are not disjoint as sets. -/
theorem coder_disjointness_cex :
    coderDupCS.completed_files = ["app.js"] ∧ coderDupCS.failed_files = ["app.js"] ∧
    ¬ (∀ x ∈ coderDupCS.completed_files, x ∉ coderDupCS.failed_files) := by
  decide

/-- C2 witness: the amended theorem at the concrete duplicated-filepath
run (the length equation holds there; the disjointness implication is
conditional on distinct step filepaths). -/
theorem coder_coverage_invariant_witness :
    coderDupCS.completed_files.length + coderDupCS.failed_files.length =
      coderDupCS.current_step_idx ∧
    ((coderDupCS.task_plan.implementation_steps.map (fun t => t.filepath)).Nodup →
      ∀ x ∈ coderDupCS.completed_files, x ∉ coderDupCS.failed_files) :=
  coder_coverage_invariant [CoderOracle.outerExc, CoderOracle.reactOk emptyFS] emptyFS stDup
    (by intro cs hcs; simp [stDup] at hcs) coderDupCS rfl
